import Mathlib

/-!
Verification development for the Permafrost Engine group-movement module
(`src/game/movement.c`): flock formation (`make_flock_from_selection`),
per-agent steering forces, and the fixed 30 Hz tick integrator
(`on_30hz_tick`).

Modelling notes (shallow embedding):
* C `float` arithmetic is modelled by exact real arithmetic (`ℝ`).
  `PFM_Vec2_*` primitives (length, normalize, scale, add, sub) are not
  part of the provided sources; they are modelled from the spec's
  description of the Vector Math Utilities ("2D vector ops, length,
  normalize, scale, clamp-magnitude").  Division by a zero length is
  total in Lean (`x / 0 = 0`) where C would produce non-finite floats.
* The mutable globals `s_flocks`, `s_entity_state_table` and the
  entities' positions (written through `struct entity *` pointers)
  become explicit fields of a `World` record that is threaded through
  the operations.  Entities are referenced by their `uid` key, exactly
  as the C hash tables key them.
* `khash` sets/maps become lists of keys plus lookup functions; `kvec`
  with the backwards swap-remove deletion pattern becomes a list
  traversal.  The swap-remove permutes the registry order in C; no
  property stated here observes registry order, only membership.
* Hash-table iteration order (`kh_foreach`) is unspecified in C; the
  model iterates member lists in list order.  All properties proved
  below are insensitive to the processing order.
* `E_Entity_Notify` event emissions become an explicit event list
  returned by each operation.
* `assert`-guarded lookups (movement state of an enrolled entity) are
  totalised with a default of `{velocity = 0, state = MOVING}`; the
  asserts make the defaulted branch unreachable in the C program.
* Allocation success of `kh_init` inside `make_flock_from_selection`
  is modelled by an explicit `allocOk : Bool` parameter.
* The orientation update (`dir_quat_from_velocity`), the terrain height
  resample for the y coordinate, and the move-marker entities are not
  observed by any stated property and are omitted; the map-bounds clamp
  `M_ClampedMapCoordinate` of an external collaborator is a parameter
  `mc : Vec2 → Vec2`.
-/

namespace Movement

noncomputable section

/-- Ground-plane (XZ) vector, the `vec2_t` of the source. -/
structure Vec2 where
  x : ℝ
  y : ℝ

/-- Modelled from the spec: component-wise vector addition (`PFM_Vec2_Add`). -/
def Vec2.add (a b : Vec2) : Vec2 := ⟨a.x + b.x, a.y + b.y⟩

/-- Modelled from the spec: component-wise vector subtraction (`PFM_Vec2_Sub`). -/
def Vec2.sub (a b : Vec2) : Vec2 := ⟨a.x - b.x, a.y - b.y⟩

/-- Modelled from the spec: scalar multiplication (`PFM_Vec2_Scale`). -/
def Vec2.scale (s : ℝ) (v : Vec2) : Vec2 := ⟨s * v.x, s * v.y⟩

/-- Zero vector, the `(vec2_t){0.0f}` literal of the source. -/
def Vec2.zero : Vec2 := ⟨0, 0⟩

/-- Modelled from the spec: Euclidean length (`PFM_Vec2_Len`). -/
def Vec2.len (v : Vec2) : ℝ := Real.sqrt (v.x ^ 2 + v.y ^ 2)

/-- Modelled from the spec: normalization (`PFM_Vec2_Normal`), division of the
vector by its own length. -/
def Vec2.normal (v : Vec2) : Vec2 := Vec2.scale (1 / v.len) v

/-- Magnitude clamp `vec2_truncate` of the source: rescale to `maxLen`
only when the current length strictly exceeds it. -/
def vec2_truncate (v : Vec2) (maxLen : ℝ) : Vec2 :=
  if v.len > maxLen then Vec2.scale maxLen v.normal else v

/-- Constant `ENTITY_MASS` (all entities share unit mass). -/
def ENTITY_MASS : ℝ := 1

/-- Constant `EPSILON`. -/
def EPSILON : ℝ := 1 / 1024

/-- Constant `MAX_FORCE`, the steering-force magnitude cap. -/
def MAX_FORCE : ℝ := 1

/-- Constant `MOVE_SEPARATION_FORCE_SCALE`. -/
def MOVE_SEPARATION_FORCE_SCALE : ℝ := 1.6

/-- Constant `MOVE_ARRIVE_FORCE_SCALE`. -/
def MOVE_ARRIVE_FORCE_SCALE : ℝ := 0.7

/-- Constant `MOVE_COHESION_FORCE_SCALE`. -/
def MOVE_COHESION_FORCE_SCALE : ℝ := 0.1

/-- Constant `MOVE_ALIGN_FORCE_SCALE`. -/
def MOVE_ALIGN_FORCE_SCALE : ℝ := 0.1

/-- Constant `SETTLE_SEPARATION_FORCE_SCALE`. -/
def SETTLE_SEPARATION_FORCE_SCALE : ℝ := 3.2

/-- Constant `ARRIVE_THRESHOLD_DIST`. -/
def ARRIVE_THRESHOLD_DIST : ℝ := 5

/-- Constant `MOVE_SEPARATION_BUFFER_DIST`. -/
def MOVE_SEPARATION_BUFFER_DIST : ℝ := 8

/-- Constant `SETTLE_SEPARATION_BUFFER_DIST`. -/
def SETTLE_SEPARATION_BUFFER_DIST : ℝ := 14

/-- Constant `COHESION_NEIGHBOUR_RADIUS`. -/
def COHESION_NEIGHBOUR_RADIUS : ℝ := 25

/-- Constant `ALIGN_NEIGHBOUR_RADIUS`. -/
def ALIGN_NEIGHBOUR_RADIUS : ℝ := 10

/-- Constant `ARRIVE_SLOWING_RADIUS`. -/
def ARRIVE_SLOWING_RADIUS : ℝ := 10

/-- Constant `ADJACENCY_SEP_DIST`. -/
def ADJACENCY_SEP_DIST : ℝ := 10

/-- Constant `SETTLE_STOP_TOLERANCE`. -/
def SETTLE_STOP_TOLERANCE : ℝ := 0.05

/-- Local constant `TICK_RES` of `on_30hz_tick` (the C `int` 30 converted
to `float` when it divides a speed). -/
def TICK_RES : ℝ := 30

/-- Arrival phase of an agent, `enum arrival_state` of the source. -/
inductive ArrivalState where
  | moving
  | settling
  | arrived
deriving DecidableEq, Repr

/-- Per-agent motion state, `struct movestate` of the source. -/
structure Movestate where
  velocity : Vec2
  state : ArrivalState

/-- Immutable attributes of an external entity that the movement code
reads: the `flags & ENTITY_FLAG_STATIC` test, `max_speed` and
`selection_radius`.  The mutable ground-plane position lives in `World`. -/
structure Ent where
  flags_static : Bool
  max_speed : ℝ
  selection_radius : ℝ

/-- One flock, `struct flock` of the source: the member entity uids
(`khash` set keyed by uid) and the shared target point. -/
structure Flock where
  ents : List Nat
  target_xz : Vec2

/-- Notification emitted through the event bus (`E_Entity_Notify`). -/
inductive Event where
  | motionStart (uid : Nat)
  | motionEnd (uid : Nat)
deriving DecidableEq, Repr

/-- Whole mutable state of the module: entity attributes and positions
(read/written through entity pointers in C), the global
`s_entity_state_table`, and the global `s_flocks` registry. -/
structure World where
  ents : Nat → Ent
  pos : Nat → Vec2
  stateTable : Nat → Option Movestate
  flocks : List Flock

/-- Selected entities are enrolled only when not flagged static and with a
nonzero max speed; the source skips an entity when
`curr_ent->flags & ENTITY_FLAG_STATIC || curr_ent->max_speed == 0.0f`. -/
def entityEligible (e : Ent) : Prop := e.flags_static = false ∧ e.max_speed ≠ 0

instance (e : Ent) : Decidable (entityEligible e) := by
  unfold entityEligible
  infer_instance

/-- Lookup of the movement state of an entity.  The source asserts that the
entry exists at every use site; the default is never reached there. -/
def lookupState (w : World) (uid : Nat) : Movestate :=
  (w.stateTable uid).getD ⟨Vec2.zero, ArrivalState.moving⟩

/-- Write one entry of the state table (`kh_value(s_entity_state_table, k) = ...`). -/
def setEntry (w : World) (uid : Nat) (ms : Movestate) : World :=
  { w with stateTable := fun u => if u = uid then some ms else w.stateTable u }

/-- Write the ground-plane position of one entity (`curr->pos = ...`). -/
def setPos (w : World) (uid : Nat) (p : Vec2) : World :=
  { w with pos := fun u => if u = uid then p else w.pos u }

/-- Steering behaviour `seek_force` of the source. -/
def seek_force (w : World) (uid : Nat) (f : Flock) (tickRes : ℝ) : Vec2 :=
  let desired := Vec2.scale ((w.ents uid).max_speed / tickRes)
      (Vec2.sub f.target_xz (w.pos uid)).normal
  Vec2.sub desired (lookupState w uid).velocity

/-- Steering behaviour `arrive_force` of the source: seek, with the desired
velocity scaled down linearly inside the slowing radius, then clamped. -/
def arrive_force (w : World) (uid : Nat) (f : Flock) (tickRes : ℝ) : Vec2 :=
  let toTarget := Vec2.sub f.target_xz (w.pos uid)
  let distance := toTarget.len
  let desired0 := Vec2.scale ((w.ents uid).max_speed / tickRes) toTarget.normal
  let desired :=
    if distance < ARRIVE_SLOWING_RADIUS then
      Vec2.scale (distance / ARRIVE_SLOWING_RADIUS) desired0
    else desired0
  vec2_truncate (Vec2.sub desired (lookupState w uid).velocity) MAX_FORCE

/-- Steering behaviour `alignment_force` of the source: average the
velocities of flock-mates within the align radius whose speed is at least
`EPSILON`, minus the own velocity, clamped. -/
def alignment_force (w : World) (uid : Nat) (f : Flock) (tickRes : ℝ) : Vec2 :=
  let neigh := f.ents.filter (fun u =>
    decide (u ≠ uid) &&
    decide ((Vec2.sub (w.pos u) (w.pos uid)).len < ALIGN_NEIGHBOUR_RADIUS) &&
    decide (¬ (lookupState w u).velocity.len < EPSILON))
  if neigh.length = 0 then Vec2.zero
  else
    let sum := neigh.foldl (fun acc u => Vec2.add acc (lookupState w u).velocity) Vec2.zero
    vec2_truncate
      (Vec2.sub (Vec2.scale (1 / (neigh.length : ℝ)) sum) (lookupState w uid).velocity)
      MAX_FORCE

/-- Steering behaviour `cohesion_force` of the source: steer towards the
centre of mass of flock-mates within the cohesion radius, clamped. -/
def cohesion_force (w : World) (uid : Nat) (f : Flock) (tickRes : ℝ) : Vec2 :=
  let neigh := f.ents.filter (fun u =>
    decide (u ≠ uid) &&
    decide ((Vec2.sub (w.pos u) (w.pos uid)).len < COHESION_NEIGHBOUR_RADIUS))
  if neigh.length = 0 then Vec2.zero
  else
    let com := neigh.foldl (fun acc u => Vec2.add acc (w.pos u)) Vec2.zero
    vec2_truncate
      (Vec2.sub (Vec2.scale (1 / (neigh.length : ℝ)) com) (w.pos uid))
      MAX_FORCE

/-- Steering behaviour `separation_force` of the source: push away from
flock-mates inside `selection_radius + bufferDist`, with linear falloff,
negated mean, clamped. -/
def separation_force (w : World) (uid : Nat) (f : Flock) (tickRes : ℝ)
    (bufferDist : ℝ) : Vec2 :=
  let radius := (w.ents uid).selection_radius + bufferDist
  let neigh := f.ents.filter (fun u =>
    decide (u ≠ uid) &&
    decide ((Vec2.sub (w.pos u) (w.pos uid)).len < radius))
  if neigh.length = 0 then Vec2.zero
  else
    let sum := neigh.foldl (fun acc u =>
      let diff := Vec2.sub (w.pos u) (w.pos uid)
      Vec2.add acc (Vec2.scale (1 - diff.len / radius) diff)) Vec2.zero
    vec2_truncate (Vec2.scale (-(1 / (neigh.length : ℝ))) sum) MAX_FORCE

/-- Phase-selected weighted blend `total_steering_force` of the source. -/
def total_steering_force (w : World) (uid : Nat) (f : Flock) (tickRes : ℝ) : Vec2 :=
  let arrive := arrive_force w uid f tickRes
  let cohesion := cohesion_force w uid f tickRes
  let alignment := alignment_force w uid f tickRes
  let ret :=
    match (lookupState w uid).state with
    | ArrivalState.moving =>
        let separation := separation_force w uid f tickRes MOVE_SEPARATION_BUFFER_DIST
        Vec2.add (Vec2.add (Vec2.add (Vec2.add Vec2.zero
          (Vec2.scale MOVE_SEPARATION_FORCE_SCALE separation))
          (Vec2.scale MOVE_ARRIVE_FORCE_SCALE arrive))
          (Vec2.scale MOVE_COHESION_FORCE_SCALE cohesion))
          (Vec2.scale MOVE_ALIGN_FORCE_SCALE alignment)
    | ArrivalState.settling =>
        Vec2.add Vec2.zero
          (Vec2.scale SETTLE_SEPARATION_FORCE_SCALE
            (separation_force w uid f tickRes SETTLE_SEPARATION_BUFFER_DIST))
    | ArrivalState.arrived => Vec2.zero
  vec2_truncate ret MAX_FORCE

/-- Restatement of the spec's description of the arrive behaviour, for the
refinement proof of the arrive force: desired velocity is the normalized
offset to the target scaled by `maxSpeed / tickRate`, additionally by
`distance / slowingRadius` below the slowing radius; the force is desired
minus current velocity, clamped to magnitude one. -/
def arriveForceSpec (w : World) (uid : Nat) (f : Flock) (tickRes : ℝ) : Vec2 :=
  let offset := Vec2.sub f.target_xz (w.pos uid)
  let desired :=
    if offset.len < 10 then
      Vec2.scale ((w.ents uid).max_speed / tickRes * (offset.len / 10)) offset.normal
    else
      Vec2.scale ((w.ents uid).max_speed / tickRes) offset.normal
  vec2_truncate (Vec2.sub desired (lookupState w uid).velocity) 1

/-- Flock-mates within `selection_radius + other.selection_radius +
ADJACENCY_SEP_DIST` of the given member, `adjacent_flock_members` of the
source (the pointer comparison `curr == ent` becomes a uid comparison). -/
def adjacent_flock_members (w : World) (uid : Nat) (f : Flock) : List Nat :=
  f.ents.filter (fun u =>
    decide (u ≠ uid) &&
    decide ((Vec2.sub (w.pos uid) (w.pos u)).len ≤
      (w.ents uid).selection_radius + (w.ents u).selection_radius + ADJACENCY_SEP_DIST))

/-- Removal of one uid from every flock of the registry, destroying any
flock whose member set becomes empty: the inner backwards loop of
`make_flock_from_selection`. -/
def removeUid (uid : Nat) : List Flock → List Flock
  | [] => []
  | f :: fs =>
      let f' : Flock := { f with ents := f.ents.filter (fun u => decide (u ≠ uid)) }
      if f'.ents = [] then removeUid uid fs else f' :: removeUid uid fs

/-- First loop of `make_flock_from_selection`: each eligible selected
entity is removed from any flock it belongs to. -/
def removalPhase (w : World) : List Nat → List Flock → List Flock
  | [], fs => fs
  | uid :: rest, fs =>
      removalPhase w rest (if entityEligible (w.ents uid) then removeUid uid fs else fs)

/-- Enrollment of a single eligible entity into the state table: the body
of the second loop of `make_flock_from_selection`.  A fresh entry starts
with zero velocity in phase MOVING and notifies motion start; an existing
entry keeps its velocity, notifies only from the ARRIVED phase, and is
forced to MOVING. -/
def enrollOne (uid : Nat) (st : Nat → Option Movestate) : Movestate × List Event :=
  match st uid with
  | none => (⟨Vec2.zero, ArrivalState.moving⟩, [Event.motionStart uid])
  | some ms =>
      (⟨ms.velocity, ArrivalState.moving⟩,
        if ms.state = ArrivalState.arrived then [Event.motionStart uid] else [])

/-- Second loop of `make_flock_from_selection`: build the member list of
the new flock and update the state table, collecting notifications. -/
def enrollPhase (w : World) :
    List Nat → (Nat → Option Movestate) → List Nat × (Nat → Option Movestate) × List Event
  | [], st => ([], st, [])
  | uid :: rest, st =>
      if entityEligible (w.ents uid) then
        let r0 := enrollOne uid st
        let r := enrollPhase w rest (fun u => if u = uid then some r0.1 else st u)
        (uid :: r.1, r.2.1, r0.2 ++ r.2.2)
      else
        enrollPhase w rest st

/-- Resulting state-table entry for an enrolled entity, as a function of
its previous entry (used to state the enrollment property). -/
def enrollEntry : Option Movestate → Movestate
  | none => ⟨Vec2.zero, ArrivalState.moving⟩
  | some ms => ⟨ms.velocity, ArrivalState.moving⟩

/-- Operation `make_flock_from_selection` of the source: remove the
eligible selection from existing flocks (destroying emptied flocks), then,
if the allocation of the new member set succeeds, enroll the eligible
selection and push the new flock; on allocation failure return false with
the removals already applied, exactly as the C control flow does. -/
def make_flock_from_selection (w : World) (sel : List Nat) (target_xz : Vec2)
    (allocOk : Bool) : Bool × World × List Event :=
  let flocks1 := removalPhase w sel w.flocks
  if allocOk then
    let r := enrollPhase w sel w.stateTable
    (true,
      { w with flocks := flocks1 ++ [{ ents := r.1, target_xz := target_xz }],
               stateTable := r.2.1 },
      r.2.2)
  else
    (false, { w with flocks := flocks1 }, [])

/-- Per-member body of the tick loop in `on_30hz_tick`: integrate force
into velocity (clamped to `max_speed / TICK_RES`), move the entity, then
run the phase transition switch. -/
def updateEnt (mc : Vec2 → Vec2) (f : Flock) (uid : Nat) (w : World) :
    World × List Event :=
  match w.stateTable uid with
  | none => (w, [])
  | some ms =>
      let e := w.ents uid
      let steer := total_steering_force w uid f TICK_RES
      let newV := vec2_truncate
        (Vec2.add ms.velocity (Vec2.scale (1 / ENTITY_MASS) steer))
        (e.max_speed / TICK_RES)
      let newPos := mc (Vec2.add (w.pos uid) newV)
      let w1 := setEntry (setPos w uid newPos) uid ⟨newV, ms.state⟩
      match ms.state with
      | ArrivalState.moving =>
          let r2 :=
            if (Vec2.sub f.target_xz newPos).len < ARRIVE_THRESHOLD_DIST then
              (setEntry w1 uid ⟨Vec2.zero, ArrivalState.arrived⟩, [Event.motionEnd uid])
            else (w1, ([] : List Event))
          let w3 :=
            if ∃ u ∈ adjacent_flock_members r2.1 uid f,
                (lookupState r2.1 u).state = ArrivalState.arrived ∨
                (lookupState r2.1 u).state = ArrivalState.settling then
              setEntry r2.1 uid ⟨(lookupState r2.1 uid).velocity, ArrivalState.settling⟩
            else r2.1
          (w3, r2.2)
      | ArrivalState.settling =>
          if newV.len < SETTLE_STOP_TOLERANCE * e.max_speed then
            (setEntry w1 uid ⟨Vec2.zero, ArrivalState.arrived⟩, [Event.motionEnd uid])
          else (w1, [])
      | ArrivalState.arrived => (w1, [])

/-- Processing of all members of one flock, in member order. -/
def tickMembers (mc : Vec2 → Vec2) (f : Flock) : List Nat → World → World × List Event
  | [], w => (w, [])
  | uid :: rest, w =>
      let r1 := updateEnt mc f uid w
      let r2 := tickMembers mc f rest r1.1
      (r2.1, r1.2 ++ r2.2)

/-- Disband condition of `on_30hz_tick`: every member of the flock is in
the ARRIVED phase. -/
def allArrived (w : World) (f : Flock) : Prop :=
  ∀ uid ∈ f.ents, (lookupState w uid).state = ArrivalState.arrived

instance allArrivedDec (w : World) (f : Flock) : Decidable (allArrived w f) :=
  List.decidableBAll _ f.ents

/-- Flock loop of `on_30hz_tick`: flocks whose members have all arrived
are destroyed and skipped; the others have their members processed.
Returns the final world, the surviving registry, and the notifications. -/
def runFlocks (mc : Vec2 → Vec2) : List Flock → World → World × List Flock × List Event
  | [], w => (w, [], [])
  | f :: rest, w =>
      if allArrived w f then
        runFlocks mc rest w
      else
        let r1 := tickMembers mc f f.ents w
        let r2 := runFlocks mc rest r1.1
        (r2.1, f :: r2.2.1, r1.2 ++ r2.2.2)

/-- Tick handler `on_30hz_tick` of the source, as a function of the
map-bounds clamp collaborator `mc` and the current world. -/
def on_30hz_tick (mc : Vec2 → Vec2) (w : World) : World × List Event :=
  let r := runFlocks mc w.flocks w
  ({ r.1 with flocks := r.2.1 }, r.2.2)

/-- World part of the tick handler result. -/
def tickW (mc : Vec2 → Vec2) (w : World) : World := (on_30hz_tick mc w).1

/-- Numeric rank of an arrival phase along the MOVING, SETTLING, ARRIVED
progression, used to state phase monotonicity. -/
def phaseRank : ArrivalState → Nat
  | ArrivalState.moving => 0
  | ArrivalState.settling => 1
  | ArrivalState.arrived => 2

/-- Evolution relation between an old and a new state-table entry of one
agent across (part of) a tick: either untouched, or updated with a phase
of no lesser rank, a clamped velocity, and preservation of the
zero-velocity-when-arrived property. -/
def entryEvolves (e : Ent) (a b : Option Movestate) : Prop :=
  a = b ∨
  ∃ ms ms', a = some ms ∧ b = some ms' ∧
    phaseRank ms.state ≤ phaseRank ms'.state ∧
    (0 ≤ e.max_speed → ms'.velocity.len ≤ e.max_speed / 30) ∧
    ((ms.state = ArrivalState.arrived → ms.velocity = Vec2.zero) →
      (ms'.state = ArrivalState.arrived → ms'.velocity = Vec2.zero))

/-- Evolution relation between worlds across (part of) a tick: entity
attributes unchanged and every state-table entry evolves. -/
def evolves (w0 w1 : World) : Prop :=
  w1.ents = w0.ents ∧
  ∀ uid, entryEvolves (w0.ents uid) (w0.stateTable uid) (w1.stateTable uid)

/-- Invariant: an agent whose stored phase is ARRIVED has stored velocity
exactly zero. -/
def arrivedZero (w : World) : Prop :=
  ∀ uid ms, w.stateTable uid = some ms → ms.state = ArrivalState.arrived →
    ms.velocity = Vec2.zero

/-- Number of flocks of a registry that contain the given uid. -/
def flockCountIn (uid : Nat) : List Flock → Nat
  | [] => 0
  | g :: fs => (if uid ∈ g.ents then 1 else 0) + flockCountIn uid fs

/-- Attributes of an ordinary mobile sample entity used in the concrete
witness worlds below. -/
def sampleEnt : Ent := ⟨false, 30, 1⟩

/-- Attributes of a static (immovable) sample entity. -/
def staticEnt : Ent := ⟨true, 30, 1⟩

/-- Witness world: no flocks, no motion states, mobile entities at the
origin. -/
def wEmpty : World :=
  { ents := fun _ => sampleEnt
    pos := fun _ => Vec2.zero
    stateTable := fun _ => none
    flocks := [] }

/-- Witness world: entity 0 has an ARRIVED motion state with zero
velocity; registry empty. -/
def wArr : World :=
  { ents := fun _ => sampleEnt
    pos := fun _ => Vec2.zero
    stateTable := fun u => if u = 0 then some ⟨Vec2.zero, ArrivalState.arrived⟩ else none
    flocks := [] }

/-- Witness world: one flock with the single mobile member 1 which has a
MOVING motion state. -/
def wOneFlock : World :=
  { ents := fun _ => sampleEnt
    pos := fun _ => Vec2.zero
    stateTable := fun u => if u = 1 then some ⟨Vec2.zero, ArrivalState.moving⟩ else none
    flocks := [{ ents := [1], target_xz := Vec2.zero }] }

/-- Witness world: all entities static, registry empty. -/
def wStatic : World :=
  { ents := fun _ => staticEnt
    pos := fun _ => Vec2.zero
    stateTable := fun _ => none
    flocks := [] }

/-- Two-member flock with members 0 and 1, used for the disband witness. -/
def fPair : Flock := { ents := [0, 1], target_xz := Vec2.zero }

/-- Witness world: the two-member flock `fPair`, both members ARRIVED with
zero velocity. -/
def wPairArrived : World :=
  { ents := fun _ => sampleEnt
    pos := fun _ => Vec2.zero
    stateTable := fun u => if u < 2 then some ⟨Vec2.zero, ArrivalState.arrived⟩ else none
    flocks := [fPair] }

/-! ### Vector algebra lemmas -/

lemma Vec2.len_nonneg (v : Vec2) : 0 ≤ v.len :=
  Real.sqrt_nonneg _

lemma Vec2.len_zero : Vec2.zero.len = 0 := by
  simp [Vec2.len, Vec2.zero]

lemma Vec2.scale_zero (a : ℝ) : Vec2.scale a Vec2.zero = Vec2.zero := by
  simp [Vec2.scale, Vec2.zero]

lemma Vec2.add_zero_zero : Vec2.add Vec2.zero Vec2.zero = Vec2.zero := by
  simp [Vec2.add, Vec2.zero]

lemma Vec2.normal_zero : Vec2.zero.normal = Vec2.zero := by
  simp [Vec2.normal, Vec2.scale_zero]

lemma Vec2.len_scale (a : ℝ) (v : Vec2) : (Vec2.scale a v).len = |a| * v.len := by
  unfold Vec2.len Vec2.scale
  dsimp only
  rw [mul_pow, mul_pow, ← mul_add, Real.sqrt_mul (sq_nonneg a), Real.sqrt_sq_eq_abs]

lemma Vec2.len_normal {v : Vec2} (h : v.len ≠ 0) : v.normal.len = 1 := by
  have h0 : 0 < v.len := lt_of_le_of_ne v.len_nonneg (Ne.symm h)
  unfold Vec2.normal
  rw [Vec2.len_scale, abs_of_nonneg (le_of_lt (by positivity)), one_div,
    inv_mul_cancel₀ h]

lemma Vec2.scale_scale (a b : ℝ) (v : Vec2) :
    Vec2.scale a (Vec2.scale b v) = Vec2.scale (a * b) v := by
  simp only [Vec2.scale, Vec2.mk.injEq]
  constructor <;> ring

lemma vec2_truncate_len_le (v : Vec2) {m : ℝ} (hm : 0 ≤ m) :
    (vec2_truncate v m).len ≤ m := by
  unfold vec2_truncate
  split_ifs with h
  · have hv : v.len ≠ 0 := by
      intro h0
      rw [h0] at h
      exact absurd hm (not_le.mpr h)
    rw [Vec2.len_scale, Vec2.len_normal hv, mul_one, abs_of_nonneg hm]
  · exact le_of_not_lt h

lemma vec2_truncate_zero (m : ℝ) : vec2_truncate Vec2.zero m = Vec2.zero := by
  unfold vec2_truncate
  split_ifs with h
  · rw [Vec2.normal_zero, Vec2.scale_zero]
  · rfl

/-! ### Projection lemmas for the world updates -/

lemma setEntry_stateTable_self (w : World) (uid : Nat) (ms : Movestate) :
    (setEntry w uid ms).stateTable uid = some ms := by
  simp [setEntry]

lemma setEntry_stateTable_other (w : World) (uid u : Nat) (ms : Movestate)
    (h : u ≠ uid) : (setEntry w uid ms).stateTable u = w.stateTable u := by
  simp [setEntry, h]

lemma setEntry_ents (w : World) (uid : Nat) (ms : Movestate) :
    (setEntry w uid ms).ents = w.ents := rfl

lemma setPos_stateTable (w : World) (uid : Nat) (p : Vec2) :
    (setPos w uid p).stateTable = w.stateTable := rfl

lemma setPos_ents (w : World) (uid : Nat) (p : Vec2) :
    (setPos w uid p).ents = w.ents := rfl

lemma lookupState_eq (w : World) (uid : Nat) (ms : Movestate)
    (h : w.stateTable uid = some ms) : lookupState w uid = ms := by
  simp [lookupState, h]

lemma lookupState_setEntry_self (w : World) (uid : Nat) (ms : Movestate) :
    lookupState (setEntry w uid ms) uid = ms := by
  simp [lookupState, setEntry]

/-! ### Steering force lemmas -/

lemma total_steering_force_arrived (w : World) (uid : Nat) (f : Flock) (tickRes : ℝ)
    (h : (lookupState w uid).state = ArrivalState.arrived) :
    total_steering_force w uid f tickRes = Vec2.zero := by
  unfold total_steering_force
  rw [h]
  exact vec2_truncate_zero _

/-! ### Per-member tick update lemmas -/

lemma updateEnt_none (mc : Vec2 → Vec2) (f : Flock) (uid : Nat) (w : World)
    (h : w.stateTable uid = none) : updateEnt mc f uid w = (w, []) := by
  unfold updateEnt
  rw [h]

lemma updateEnt_ents (mc : Vec2 → Vec2) (f : Flock) (uid : Nat) (w : World) :
    (updateEnt mc f uid w).1.ents = w.ents := by
  unfold updateEnt
  cases h : w.stateTable uid with
  | none => rfl
  | some ms =>
      cases ms with
      | mk vel st => cases st <;> dsimp only <;> (try split_ifs) <;> rfl

lemma updateEnt_stateTable_other (mc : Vec2 → Vec2) (f : Flock) (uid u : Nat)
    (w : World) (hu : u ≠ uid) :
    (updateEnt mc f uid w).1.stateTable u = w.stateTable u := by
  unfold updateEnt
  cases h : w.stateTable uid with
  | none => rfl
  | some ms =>
      cases ms with
      | mk vel st =>
          cases st <;> dsimp only <;> (try split_ifs) <;>
            simp [setEntry, setPos, hu]

lemma newVel_len_le (v : Vec2) {M : ℝ} (hM : 0 ≤ M) :
    (vec2_truncate v (M / TICK_RES)).len ≤ M / 30 := by
  have h : (TICK_RES : ℝ) = 30 := rfl
  rw [h]
  exact vec2_truncate_len_le v (div_nonneg hM (by norm_num))

lemma updateEnt_self (mc : Vec2 → Vec2) (f : Flock) (uid : Nat) (w : World)
    (ms : Movestate) (hms : w.stateTable uid = some ms) :
    ∃ ms', (updateEnt mc f uid w).1.stateTable uid = some ms' ∧
      phaseRank ms.state ≤ phaseRank ms'.state ∧
      (0 ≤ (w.ents uid).max_speed →
        ms'.velocity.len ≤ (w.ents uid).max_speed / 30) ∧
      ((ms.state = ArrivalState.arrived → ms.velocity = Vec2.zero) →
        (ms'.state = ArrivalState.arrived → ms'.velocity = Vec2.zero)) := by
  obtain ⟨vel, st⟩ := ms
  unfold updateEnt
  rw [hms]
  dsimp only
  cases st with
  | moving =>
      dsimp only
      split_ifs with h1 h2 h2
      · refine ⟨_, setEntry_stateTable_self _ _ _, ?_, ?_, ?_⟩
        · norm_num [phaseRank]
        · intro hM
          rw [lookupState_setEntry_self]
          dsimp only
          rw [Vec2.len_zero]
          exact div_nonneg hM (by norm_num)
        · intro _ hc
          simp at hc
      · refine ⟨_, setEntry_stateTable_self _ _ _, ?_, ?_, ?_⟩
        · norm_num [phaseRank]
        · intro hM
          dsimp only
          rw [Vec2.len_zero]
          exact div_nonneg hM (by norm_num)
        · intro _ _
          rfl
      · refine ⟨_, setEntry_stateTable_self _ _ _, ?_, ?_, ?_⟩
        · norm_num [phaseRank]
        · intro hM
          rw [lookupState_setEntry_self]
          exact newVel_len_le _ hM
        · intro _ hc
          simp at hc
      · refine ⟨_, setEntry_stateTable_self _ _ _, ?_, ?_, ?_⟩
        · norm_num [phaseRank]
        · intro hM
          exact newVel_len_le _ hM
        · intro _ hc
          simp at hc
  | settling =>
      dsimp only
      split_ifs with h1
      · refine ⟨_, setEntry_stateTable_self _ _ _, ?_, ?_, ?_⟩
        · norm_num [phaseRank]
        · intro hM
          dsimp only
          rw [Vec2.len_zero]
          exact div_nonneg hM (by norm_num)
        · intro _ _
          rfl
      · refine ⟨_, setEntry_stateTable_self _ _ _, ?_, ?_, ?_⟩
        · norm_num [phaseRank]
        · intro hM
          exact newVel_len_le _ hM
        · intro _ hc
          simp at hc
  | arrived =>
      dsimp only
      refine ⟨_, setEntry_stateTable_self _ _ _, ?_, ?_, ?_⟩
      · norm_num [phaseRank]
      · intro hM
        exact newVel_len_le _ hM
      · intro haz _
        have hv : vel = Vec2.zero := haz rfl
        have hst : (lookupState w uid).state = ArrivalState.arrived := by
          rw [lookupState_eq w uid _ hms]
        dsimp only
        rw [hv, total_steering_force_arrived w uid f TICK_RES hst,
          Vec2.scale_zero, Vec2.add_zero_zero, vec2_truncate_zero]

/-! ### Evolution of the state table across a tick -/

lemma entryEvolves_refl (e : Ent) (a : Option Movestate) : entryEvolves e a a :=
  Or.inl rfl

lemma entryEvolves_trans (e : Ent) (a b c : Option Movestate)
    (h1 : entryEvolves e a b) (h2 : entryEvolves e b c) : entryEvolves e a c := by
  rcases h1 with h1 | ⟨ms, ms1, ha, hb, hr, hv, hz⟩
  · rw [h1]
    exact h2
  · rcases h2 with h2 | ⟨ms1', ms2, hb', hc, hr', hv', hz'⟩
    · rw [← h2]
      exact Or.inr ⟨ms, ms1, ha, hb, hr, hv, hz⟩
    · rw [hb] at hb'
      injection hb' with he
      subst he
      exact Or.inr ⟨ms, ms2, ha, hc, le_trans hr hr', hv', fun h => hz' (hz h)⟩

lemma evolves_refl (w : World) : evolves w w :=
  ⟨rfl, fun _ => entryEvolves_refl _ _⟩

lemma evolves_trans {w0 w1 w2 : World} (h1 : evolves w0 w1) (h2 : evolves w1 w2) :
    evolves w0 w2 := by
  obtain ⟨he1, hs1⟩ := h1
  obtain ⟨he2, hs2⟩ := h2
  refine ⟨he2.trans he1, fun uid => ?_⟩
  have h := hs2 uid
  rw [he1] at h
  exact entryEvolves_trans _ _ _ _ (hs1 uid) h

lemma updateEnt_evolves (mc : Vec2 → Vec2) (f : Flock) (uid : Nat) (w : World) :
    evolves w (updateEnt mc f uid w).1 := by
  refine ⟨updateEnt_ents mc f uid w, fun u => ?_⟩
  by_cases hu : u = uid
  · subst hu
    cases hms : w.stateTable u with
    | none =>
        rw [updateEnt_none mc f u w hms]
        dsimp only
        rw [hms]
        exact entryEvolves_refl _ _
    | some ms =>
        obtain ⟨ms', h1, h2, h3, h4⟩ := updateEnt_self mc f u w ms hms
        exact Or.inr ⟨ms, ms', rfl, h1, h2, h3, h4⟩
  · exact Or.inl (updateEnt_stateTable_other mc f uid u w hu).symm

lemma tickMembers_evolves (mc : Vec2 → Vec2) (f : Flock) (l : List Nat) :
    ∀ w, evolves w (tickMembers mc f l w).1 := by
  induction l with
  | nil =>
      intro w
      exact evolves_refl w
  | cons uid rest ih =>
      intro w
      unfold tickMembers
      dsimp only
      exact evolves_trans (updateEnt_evolves mc f uid w) (ih _)

lemma tickMembers_stateTable_notmem (mc : Vec2 → Vec2) (f : Flock) (l : List Nat)
    (uid : Nat) (h : uid ∉ l) :
    ∀ w, (tickMembers mc f l w).1.stateTable uid = w.stateTable uid := by
  induction l with
  | nil =>
      intro w
      rfl
  | cons u rest ih =>
      intro w
      have hne : uid ≠ u := fun he => h (he ▸ List.mem_cons_self u rest)
      have hrest : uid ∉ rest := fun hm => h (List.mem_cons_of_mem _ hm)
      unfold tickMembers
      dsimp only
      rw [ih hrest, updateEnt_stateTable_other mc f u uid w hne]

lemma runFlocks_evolves (mc : Vec2 → Vec2) (l : List Flock) :
    ∀ w, evolves w (runFlocks mc l w).1 := by
  induction l with
  | nil =>
      intro w
      exact evolves_refl w
  | cons f rest ih =>
      intro w
      unfold runFlocks
      split_ifs with h
      · exact ih w
      · dsimp only
        exact evolves_trans (tickMembers_evolves mc f f.ents w) (ih _)

lemma tickW_evolves (mc : Vec2 → Vec2) (w : World) : evolves w (tickW mc w) := by
  have h := runFlocks_evolves mc w.flocks w
  exact ⟨h.1, h.2⟩

lemma tickW_iterate_evolves (mc : Vec2 → Vec2) (w : World) (n : ℕ) :
    evolves w ((tickW mc)^[n] w) := by
  induction n with
  | zero => simpa using evolves_refl w
  | succ n ih =>
      rw [Function.iterate_succ_apply']
      exact evolves_trans ih (tickW_evolves mc _)

lemma phaseRank_two_arrived {s : ArrivalState} (h : 2 ≤ phaseRank s) :
    s = ArrivalState.arrived := by
  cases s
  · exact absurd h (by norm_num [phaseRank])
  · exact absurd h (by norm_num [phaseRank])
  · rfl

lemma evolves_arrived_stays {w0 w1 : World} (h : evolves w0 w1) (uid : Nat)
    (ms : Movestate) (hms : w0.stateTable uid = some ms)
    (ha : ms.state = ArrivalState.arrived) :
    ∃ ms', w1.stateTable uid = some ms' ∧ ms'.state = ArrivalState.arrived := by
  rcases h.2 uid with he | ⟨m, m', hm, hm', hr, _, _⟩
  · exact ⟨ms, he ▸ hms, ha⟩
  · rw [hms] at hm
    injection hm with hmm
    subst hmm
    refine ⟨m', hm', phaseRank_two_arrived ?_⟩
    rw [ha] at hr
    exact le_trans (by norm_num [phaseRank]) hr

lemma allArrived_of_entries (w : World) (f : Flock)
    (h : ∀ uid ∈ f.ents, ∃ ms, w.stateTable uid = some ms ∧
      ms.state = ArrivalState.arrived) : allArrived w f := by
  intro uid hm
  obtain ⟨ms, h1, h2⟩ := h uid hm
  rw [lookupState_eq w uid ms h1]
  exact h2

lemma evolves_allArrived {w0 w1 : World} (h : evolves w0 w1) (f : Flock)
    (harr : ∀ uid ∈ f.ents, ∃ ms, w0.stateTable uid = some ms ∧
      ms.state = ArrivalState.arrived) :
    ∀ uid ∈ f.ents, ∃ ms, w1.stateTable uid = some ms ∧
      ms.state = ArrivalState.arrived := by
  intro uid hm
  obtain ⟨ms, h1, h2⟩ := harr uid hm
  exact evolves_arrived_stays h uid ms h1 h2

lemma runFlocks_drop (mc : Vec2 → Vec2) (f : Flock) (l : List Flock) :
    ∀ w, (∀ uid ∈ f.ents, ∃ ms, w.stateTable uid = some ms ∧
        ms.state = ArrivalState.arrived) →
      f ∉ (runFlocks mc l w).2.1 ∧
      (∀ uid ∈ f.ents, (∀ g ∈ l, g ≠ f → uid ∉ g.ents) →
        (runFlocks mc l w).1.stateTable uid = w.stateTable uid) := by
  induction l with
  | nil =>
      intro w _
      refine ⟨by simp [runFlocks], ?_⟩
      intro uid _ _
      rfl
  | cons g rest ih =>
      intro w h
      unfold runFlocks
      split_ifs with hg
      · obtain ⟨ih1, ih2⟩ := ih w h
        refine ⟨ih1, ?_⟩
        intro uid hm hng
        exact ih2 uid hm (fun g' hg' => hng g' (List.mem_cons_of_mem _ hg'))
      · have hgf : g ≠ f := by
          intro he
          subst he
          exact hg (allArrived_of_entries w g h)
        have h1 := evolves_allArrived (tickMembers_evolves mc g g.ents w) f h
        obtain ⟨ih1, ih2⟩ := ih (tickMembers mc g g.ents w).1 h1
        dsimp only
        constructor
        · intro hmem
          rcases List.mem_cons.mp hmem with he | hmem'
          · exact hgf he.symm
          · exact ih1 hmem'
        · intro uid hm hng
          have hnm : uid ∉ g.ents := hng g (List.mem_cons_self g rest) hgf
          rw [ih2 uid hm (fun g' hg' hne => hng g' (List.mem_cons_of_mem _ hg') hne)]
          exact tickMembers_stateTable_notmem mc g g.ents uid hnm w

lemma tickW_flocks (mc : Vec2 → Vec2) (w : World) :
    (tickW mc w).flocks = (runFlocks mc w.flocks w).2.1 := rfl

lemma tickW_stateTable (mc : Vec2 → Vec2) (w : World) :
    (tickW mc w).stateTable = (runFlocks mc w.flocks w).1.stateTable := rfl

/-! ### Removal phase lemmas -/

lemma removeUid_not_mem (uid : Nat) :
    ∀ fs : List Flock, ∀ g ∈ removeUid uid fs, uid ∉ g.ents := by
  intro fs
  induction fs with
  | nil =>
      intro g hg
      simp [removeUid] at hg
  | cons f fs ih =>
      intro g hg
      unfold removeUid at hg
      dsimp only at hg
      split_ifs at hg with h
      · exact ih g hg
      · rcases List.mem_cons.mp hg with he | hg'
        · subst he
          intro hm
          rw [List.mem_filter] at hm
          simp at hm
        · exact ih g hg'

lemma removeUid_preserves_not_mem (x u : Nat) :
    ∀ fs : List Flock, (∀ g ∈ fs, u ∉ g.ents) →
      ∀ g ∈ removeUid x fs, u ∉ g.ents := by
  intro fs
  induction fs with
  | nil =>
      intro _ g hg
      simp [removeUid] at hg
  | cons f fs ih =>
      intro h g hg
      have hf : u ∉ f.ents := h f (List.mem_cons_self f fs)
      have hfs : ∀ g' ∈ fs, u ∉ g'.ents := fun g' hg' => h g' (List.mem_cons_of_mem _ hg')
      unfold removeUid at hg
      dsimp only at hg
      split_ifs at hg with hc
      · exact ih hfs g hg
      · rcases List.mem_cons.mp hg with he | hg'
        · subst he
          intro hm
          rw [List.mem_filter] at hm
          exact hf hm.1
        · exact ih hfs g hg'

lemma removeUid_nonempty (x : Nat) :
    ∀ fs : List Flock, ∀ g ∈ removeUid x fs, g.ents ≠ [] := by
  intro fs
  induction fs with
  | nil =>
      intro g hg
      simp [removeUid] at hg
  | cons f fs ih =>
      intro g hg
      unfold removeUid at hg
      dsimp only at hg
      split_ifs at hg with h
      · exact ih g hg
      · rcases List.mem_cons.mp hg with he | hg'
        · subst he
          exact h
        · exact ih g hg'

lemma flockCountIn_nil (u : Nat) : flockCountIn u [] = 0 := rfl

lemma flockCountIn_cons (u : Nat) (g : Flock) (fs : List Flock) :
    flockCountIn u (g :: fs) = (if u ∈ g.ents then 1 else 0) + flockCountIn u fs := rfl

lemma removeUid_count_le (x u : Nat) :
    ∀ fs : List Flock, flockCountIn u (removeUid x fs) ≤ flockCountIn u fs := by
  intro fs
  induction fs with
  | nil => simp [removeUid, flockCountIn]
  | cons f fs ih =>
      unfold removeUid
      dsimp only
      split_ifs with h
      · rw [flockCountIn_cons]
        exact le_trans ih (Nat.le_add_left _ _)
      · rw [flockCountIn_cons, flockCountIn_cons]
        dsimp only
        refine Nat.add_le_add ?_ ih
        by_cases h1 : u ∈ f.ents.filter (fun v => decide (v ≠ x))
        · rw [if_pos h1, if_pos (List.mem_filter.mp h1).1]
        · rw [if_neg h1]
          exact Nat.zero_le _

lemma flockCountIn_zero (u : Nat) :
    ∀ fs : List Flock, (∀ g ∈ fs, u ∉ g.ents) → flockCountIn u fs = 0 := by
  intro fs
  induction fs with
  | nil => intro _; rfl
  | cons f fs ih =>
      intro h
      unfold flockCountIn
      rw [if_neg (h f (List.mem_cons_self f fs)),
        ih (fun g hg => h g (List.mem_cons_of_mem _ hg))]

lemma flockCountIn_append (u : Nat) :
    ∀ fs gs : List Flock,
      flockCountIn u (fs ++ gs) = flockCountIn u fs + flockCountIn u gs := by
  intro fs gs
  induction fs with
  | nil => simp [flockCountIn]
  | cons f fs ih =>
      rw [List.cons_append, flockCountIn_cons, flockCountIn_cons, ih, Nat.add_assoc]

lemma removalPhase_count_le (w : World) (u : Nat) :
    ∀ (sel : List Nat) (fs : List Flock),
      flockCountIn u (removalPhase w sel fs) ≤ flockCountIn u fs := by
  intro sel
  induction sel with
  | nil =>
      intro fs
      exact le_refl _
  | cons x rest ih =>
      intro fs
      unfold removalPhase
      split_ifs with h
      · exact le_trans (ih _) (removeUid_count_le x u fs)
      · exact ih fs

lemma removalPhase_preserves_not_mem (w : World) (u : Nat) :
    ∀ (sel : List Nat) (fs : List Flock), (∀ g ∈ fs, u ∉ g.ents) →
      ∀ g ∈ removalPhase w sel fs, u ∉ g.ents := by
  intro sel
  induction sel with
  | nil =>
      intro fs h
      exact h
  | cons x rest ih =>
      intro fs h
      unfold removalPhase
      split_ifs with hx
      · exact ih _ (removeUid_preserves_not_mem x u fs h)
      · exact ih fs h

lemma removalPhase_not_mem (w : World) (u : Nat) :
    ∀ (sel : List Nat) (fs : List Flock), u ∈ sel → entityEligible (w.ents u) →
      ∀ g ∈ removalPhase w sel fs, u ∉ g.ents := by
  intro sel
  induction sel with
  | nil =>
      intro fs hmem
      exact absurd hmem (List.not_mem_nil u)
  | cons x rest ih =>
      intro fs hmem hel
      by_cases hux : u = x
      · subst hux
        unfold removalPhase
        rw [if_pos hel]
        exact removalPhase_preserves_not_mem w u rest _ (removeUid_not_mem u fs)
      · have hrest : u ∈ rest := by
          rcases List.mem_cons.mp hmem with he | hr
          · exact absurd he hux
          · exact hr
        unfold removalPhase
        split_ifs with hx
        · exact ih _ hrest hel
        · exact ih fs hrest hel

lemma removalPhase_empty_flock (w : World) :
    ∀ (sel : List Nat) (fs : List Flock),
      ∀ g ∈ removalPhase w sel fs, g.ents = [] → g ∈ fs := by
  intro sel
  induction sel with
  | nil =>
      intro fs g hg _
      exact hg
  | cons x rest ih =>
      intro fs g hg hge
      unfold removalPhase at hg
      split_ifs at hg with hx
      · exact absurd hge (removeUid_nonempty x fs g (ih _ g hg hge))
      · exact ih fs g hg hge

lemma removalPhase_ineligible (w : World) :
    ∀ (sel : List Nat) (fs : List Flock),
      (∀ u ∈ sel, ¬ entityEligible (w.ents u)) → removalPhase w sel fs = fs := by
  intro sel
  induction sel with
  | nil =>
      intro fs _
      rfl
  | cons x rest ih =>
      intro fs h
      unfold removalPhase
      rw [if_neg (h x (List.mem_cons_self x rest))]
      exact ih fs (fun u hu => h u (List.mem_cons_of_mem _ hu))

/-! ### Enrollment phase lemmas -/

lemma enrollOne_state (x : Nat) (st : Nat → Option Movestate) :
    (enrollOne x st).1.state = ArrivalState.moving := by
  unfold enrollOne
  cases st x <;> rfl

lemma enrollOne_entry (x : Nat) (st : Nat → Option Movestate) :
    (enrollOne x st).1 = enrollEntry (st x) := by
  unfold enrollOne enrollEntry
  cases st x <;> rfl

lemma enrollOne_event_mem {u x : Nat} {st : Nat → Option Movestate}
    (h : Event.motionStart u ∈ (enrollOne x st).2) : u = x := by
  unfold enrollOne at h
  cases hst : st x with
  | none =>
      rw [hst] at h
      simp at h
      exact h
  | some ms =>
      rw [hst] at h
      dsimp only at h
      split_ifs at h
      · simp at h
        exact h
      · simp at h

lemma enrollPhase_ineligible (w : World) :
    ∀ (sel : List Nat) (st : Nat → Option Movestate),
      (∀ u ∈ sel, ¬ entityEligible (w.ents u)) → enrollPhase w sel st = ([], st, []) := by
  intro sel
  induction sel with
  | nil =>
      intro st _
      rfl
  | cons x rest ih =>
      intro st h
      unfold enrollPhase
      rw [if_neg (h x (List.mem_cons_self x rest))]
      exact ih st (fun u hu => h u (List.mem_cons_of_mem _ hu))

lemma enrollPhase_mem (w : World) (u : Nat) :
    ∀ (sel : List Nat) (st : Nat → Option Movestate),
      u ∈ (enrollPhase w sel st).1 ↔ u ∈ sel ∧ entityEligible (w.ents u) := by
  intro sel
  induction sel with
  | nil =>
      intro st
      simp [enrollPhase]
  | cons x rest ih =>
      intro st
      unfold enrollPhase
      split_ifs with hx
      · dsimp only
        rw [List.mem_cons, ih]
        constructor
        · rintro (he | ⟨hr, hel⟩)
          · subst he
            exact ⟨List.mem_cons_self _ _, hx⟩
          · exact ⟨List.mem_cons_of_mem _ hr, hel⟩
        · rintro ⟨hmem, hel⟩
          rcases List.mem_cons.mp hmem with he | hr
          · exact Or.inl he
          · exact Or.inr ⟨hr, hel⟩
      · rw [ih]
        constructor
        · rintro ⟨hr, hel⟩
          exact ⟨List.mem_cons_of_mem _ hr, hel⟩
        · rintro ⟨hmem, hel⟩
          rcases List.mem_cons.mp hmem with he | hr
          · exact absurd (he ▸ hel) hx
          · exact ⟨hr, hel⟩

lemma enrollPhase_skip (w : World) (u : Nat) :
    ∀ (sel : List Nat) (st : Nat → Option Movestate), u ∉ sel →
      (enrollPhase w sel st).2.1 u = st u ∧
      Event.motionStart u ∉ (enrollPhase w sel st).2.2 := by
  intro sel
  induction sel with
  | nil =>
      intro st _
      exact ⟨rfl, by simp [enrollPhase]⟩
  | cons x rest ih =>
      intro st h
      have hux : u ≠ x := fun he => h (he ▸ List.mem_cons_self x rest)
      have hrest : u ∉ rest := fun hr => h (List.mem_cons_of_mem _ hr)
      unfold enrollPhase
      split_ifs with hx
      · dsimp only
        obtain ⟨ih1, ih2⟩ := ih (fun v => if v = x then some (enrollOne x st).1 else st v) hrest
        refine ⟨?_, ?_⟩
        · rw [ih1, if_neg hux]
        · intro hmem
          rcases List.mem_append.mp hmem with hl | hr
          · exact hux (enrollOne_event_mem hl)
          · exact ih2 hr
      · exact ih st hrest

lemma enrollPhase_self (w : World) (u : Nat) :
    ∀ (sel : List Nat) (st : Nat → Option Movestate), sel.Nodup → u ∈ sel →
      entityEligible (w.ents u) →
      (enrollPhase w sel st).2.1 u = some (enrollEntry (st u)) ∧
      (Event.motionStart u ∈ (enrollPhase w sel st).2.2 ↔
        (st u = none ∨ ∃ ms, st u = some ms ∧ ms.state = ArrivalState.arrived)) := by
  intro sel
  induction sel with
  | nil =>
      intro st _ hmem
      exact absurd hmem (List.not_mem_nil u)
  | cons x rest ih =>
      intro st hnd hmem hel
      obtain ⟨hx_rest, hnd_rest⟩ := List.nodup_cons.mp hnd
      by_cases hux : u = x
      · subst hux
        unfold enrollPhase
        rw [if_pos hel]
        dsimp only
        obtain ⟨hs1, hs2⟩ := enrollPhase_skip w u rest
          (fun v => if v = u then some (enrollOne u st).1 else st v) hx_rest
        refine ⟨?_, ?_⟩
        · rw [hs1, if_pos rfl, enrollOne_entry]
        · constructor
          · intro hmem'
            rcases List.mem_append.mp hmem' with hl | hr
            · unfold enrollOne at hl
              cases hst : st u with
              | none => exact Or.inl rfl
              | some ms =>
                  rw [hst] at hl
                  dsimp only at hl
                  split_ifs at hl with ha
                  · exact Or.inr ⟨ms, rfl, ha⟩
                  · simp at hl
            · exact absurd hr hs2
          · intro hcond
            refine List.mem_append.mpr (Or.inl ?_)
            unfold enrollOne
            rcases hcond with hn | ⟨ms, hsome, ha⟩
            · rw [hn]
              exact List.mem_cons_self _ _
            · rw [hsome]
              dsimp only
              rw [if_pos ha]
              exact List.mem_cons_self _ _
      · have hrest : u ∈ rest := by
          rcases List.mem_cons.mp hmem with he | hr
          · exact absurd he hux
          · exact hr
        unfold enrollPhase
        split_ifs with hx
        · dsimp only
          obtain ⟨ih1, ih2⟩ := ih (fun v => if v = x then some (enrollOne x st).1 else st v)
            hnd_rest hrest hel
          rw [if_neg hux] at ih1 ih2
          refine ⟨ih1, ?_⟩
          rw [← ih2]
          constructor
          · intro hmem'
            rcases List.mem_append.mp hmem' with hl | hr
            · exact absurd (enrollOne_event_mem hl) hux
            · exact hr
          · intro hmem'
            exact List.mem_append.mpr (Or.inr hmem')
        · exact ih st hnd_rest hrest hel

lemma enrollPhase_az (w : World) :
    ∀ (sel : List Nat) (st : Nat → Option Movestate),
      (∀ u ms, st u = some ms → ms.state = ArrivalState.arrived →
        ms.velocity = Vec2.zero) →
      ∀ u ms, (enrollPhase w sel st).2.1 u = some ms →
        ms.state = ArrivalState.arrived → ms.velocity = Vec2.zero := by
  intro sel
  induction sel with
  | nil =>
      intro st h
      exact h
  | cons x rest ih =>
      intro st h
      unfold enrollPhase
      split_ifs with hx
      · dsimp only
        refine ih _ ?_
        intro u ms hsome ha
        by_cases hux : u = x
        · subst hux
          rw [if_pos rfl] at hsome
          injection hsome with he
          subst he
          rw [enrollOne_state] at ha
          exact absurd ha (by simp)
        · rw [if_neg hux] at hsome
          exact h u ms hsome ha
      · exact ih st h

lemma flockCountIn_sublist_le (u : Nat) {l1 l2 : List Flock} (h : l1.Sublist l2) :
    flockCountIn u l1 ≤ flockCountIn u l2 := by
  induction h with
  | slnil => exact le_refl _
  | cons g h ih =>
      rw [flockCountIn_cons]
      exact le_trans ih (Nat.le_add_left _ _)
  | cons₂ g h ih =>
      rw [flockCountIn_cons, flockCountIn_cons]
      exact Nat.add_le_add_left ih _

lemma runFlocks_survivors_sublist (mc : Vec2 → Vec2) (l : List Flock) :
    ∀ w, ((runFlocks mc l w).2.1).Sublist l := by
  induction l with
  | nil =>
      intro w
      exact List.Sublist.refl _
  | cons f rest ih =>
      intro w
      unfold runFlocks
      split_ifs with h
      · exact List.Sublist.cons f (ih w)
      · exact List.Sublist.cons₂ f (ih _)

/-! ### Claim theorems -/

/-- C1: Phase transitions are monotonic per agent: across any sequence of
ticks, the stored phase of an agent only advances along the MOVING,
SETTLING, ARRIVED progression and never returns to an earlier phase (a
fresh `make_flock_from_selection` call, which may reset the phase, is not
part of the tick sequence). -/
theorem tick_phase_monotonic (mc : Vec2 → Vec2) (w : World) (n : ℕ) (uid : Nat)
    (ms ms' : Movestate)
    (h0 : w.stateTable uid = some ms)
    (h1 : ((tickW mc)^[n] w).stateTable uid = some ms') :
    phaseRank ms.state ≤ phaseRank ms'.state := by
  rcases (tickW_iterate_evolves mc w n).2 uid with he | ⟨m, m', hA, hB, hr, _, _⟩
  · rw [he, h1] at h0
    injection h0 with he'
    rw [he']
  · rw [h0] at hA
    injection hA with hAe
    rw [h1] at hB
    injection hB with hBe
    rw [hAe, hBe]
    exact hr

/-- Witness for C1 at a concrete world: an ARRIVED agent still has an
ARRIVED entry of no lesser rank after one tick. -/
theorem tick_phase_monotonic_witness :
    wArr.stateTable 0 = some ⟨Vec2.zero, ArrivalState.arrived⟩ ∧
    ((tickW id)^[1] wArr).stateTable 0 = some ⟨Vec2.zero, ArrivalState.arrived⟩ ∧
    phaseRank ArrivalState.arrived ≤ phaseRank ArrivalState.arrived := by
  have h0 : wArr.stateTable 0 = some ⟨Vec2.zero, ArrivalState.arrived⟩ := by
    simp [wArr]
  have h1 : ((tickW id)^[1] wArr).stateTable 0 =
      some ⟨Vec2.zero, ArrivalState.arrived⟩ := by
    rw [Function.iterate_one]
    exact h0
  exact ⟨h0, h1, tick_phase_monotonic id wArr 1 0 _ _ h0 h1⟩

/-- C2: an agent is a member of at most one flock of the registry after
`make_flock_from_selection`, provided that invariant held before; the
removal phase removes each eligible selected agent from every flock, and
any flock whose member set becomes empty during the removal is destroyed
in the same call (an empty flock found in the post-removal registry can
only be one that was already in the registry before the call); the tick
only ever drops whole flocks, so it also preserves the at-most-one-flock
invariant. -/
theorem make_flock_single_membership (mc : Vec2 → Vec2) (w : World)
    (sel : List Nat) (t : Vec2) (allocOk : Bool)
    (huniq : ∀ u, flockCountIn u w.flocks ≤ 1)
    (hnd : sel.Nodup) :
    (∀ u, flockCountIn u (make_flock_from_selection w sel t allocOk).2.1.flocks ≤ 1) ∧
    (∀ u ∈ sel, entityEligible (w.ents u) →
      ∀ g ∈ removalPhase w sel w.flocks, u ∉ g.ents) ∧
    (∀ g ∈ removalPhase w sel w.flocks, g.ents = [] → g ∈ w.flocks) ∧
    (∀ u, flockCountIn u (tickW mc w).flocks ≤ 1) := by
  refine ⟨?_, fun u hu hel => removalPhase_not_mem w u sel w.flocks hu hel,
    removalPhase_empty_flock w sel w.flocks,
    fun u => le_trans
      (flockCountIn_sublist_le u
        (tickW_flocks mc w ▸ runFlocks_survivors_sublist mc w.flocks w))
      (huniq u)⟩
  intro u
  cases allocOk with
  | false =>
      show flockCountIn u (removalPhase w sel w.flocks) ≤ 1
      exact le_trans (removalPhase_count_le w u sel w.flocks) (huniq u)
  | true =>
      show flockCountIn u (removalPhase w sel w.flocks ++
        [{ ents := (enrollPhase w sel w.stateTable).1, target_xz := t }]) ≤ 1
      rw [flockCountIn_append, flockCountIn_cons, flockCountIn_nil]
      dsimp only
      by_cases hmem : u ∈ (enrollPhase w sel w.stateTable).1
      · have hin := (enrollPhase_mem w u sel w.stateTable).mp hmem
        rw [flockCountIn_zero u _ (removalPhase_not_mem w u sel w.flocks hin.1 hin.2),
          if_pos hmem]
      · rw [if_neg hmem]
        have h := le_trans (removalPhase_count_le w u sel w.flocks) (huniq u)
        omega

/-- Witness for C2 on a concrete world with an empty registry and the
one-element selection `[0]`. -/
theorem make_flock_single_membership_witness :
    (∀ u, flockCountIn u wEmpty.flocks ≤ 1) ∧
    (∀ u, flockCountIn u
      (make_flock_from_selection wEmpty [0] Vec2.zero true).2.1.flocks ≤ 1) := by
  have huniq : ∀ u, flockCountIn u wEmpty.flocks ≤ 1 := by
    intro u
    simp [wEmpty, flockCountIn]
  have hnd : ([0] : List Nat).Nodup := by simp
  exact ⟨huniq,
    (make_flock_single_membership id wEmpty [0] Vec2.zero true huniq hnd).1⟩

/-- C3: every total steering force output has magnitude at most
`MAX_FORCE` (one), for every agent, flock and tick rate. -/
theorem steering_force_bounded (w : World) (uid : Nat) (f : Flock) (tickRes : ℝ) :
    (total_steering_force w uid f tickRes).len ≤ MAX_FORCE := by
  unfold total_steering_force
  exact vec2_truncate_len_le _ (by norm_num [MAX_FORCE])

/-- C4: after a tick, every stored velocity has magnitude at most
`max_speed / 30`; the bound is preserved by every tick whatever steering
force was applied, given nonnegative maximum speeds. -/
theorem tick_velocity_clamped (mc : Vec2 → Vec2) (w : World)
    (hm : ∀ u, 0 ≤ (w.ents u).max_speed)
    (hb : ∀ u ms, w.stateTable u = some ms →
      ms.velocity.len ≤ (w.ents u).max_speed / 30) :
    ∀ u ms, (tickW mc w).stateTable u = some ms →
      ms.velocity.len ≤ (w.ents u).max_speed / 30 := by
  intro u ms hms
  rcases (tickW_evolves mc w).2 u with he | ⟨m, m', hA, hB, _, hv, _⟩
  · exact hb u ms (he.trans hms)
  · rw [hms] at hB
    injection hB with hBe
    rw [hBe]
    exact hv (hm u)

/-- Witness for C4 on a concrete world whose only entry is an ARRIVED
agent with zero velocity. -/
theorem tick_velocity_clamped_witness :
    (∀ u, 0 ≤ (wArr.ents u).max_speed) ∧
    (∀ u ms, (tickW id wArr).stateTable u = some ms →
      ms.velocity.len ≤ (wArr.ents u).max_speed / 30) := by
  have hm : ∀ u, 0 ≤ (wArr.ents u).max_speed := by
    intro u
    norm_num [wArr, sampleEnt]
  have hb : ∀ u ms, wArr.stateTable u = some ms →
      ms.velocity.len ≤ (wArr.ents u).max_speed / 30 := by
    intro u ms hms
    by_cases hu : u = 0
    · subst hu
      simp only [wArr, if_pos rfl] at hms
      injection hms with he
      rw [← he]
      rw [Vec2.len_zero]
      norm_num [wArr, sampleEnt]
    · simp only [wArr, if_neg hu] at hms
      cases hms
  exact ⟨hm, tick_velocity_clamped id wArr hm hb⟩

/-- C5 counterexample: `make_flock_from_selection` on an all-ineligible
selection returns true yet pushes a flock with an empty member set onto
the registry, contradicting the claim that no zero-member flock is ever
added. -/
theorem make_flock_pushes_empty_flock :
    (make_flock_from_selection wStatic [0] Vec2.zero true).1 = true ∧
    ∃ g ∈ (make_flock_from_selection wStatic [0] Vec2.zero true).2.1.flocks,
      g.ents = [] := by
  have hn : ∀ u ∈ ([0] : List Nat), ¬ entityEligible (wStatic.ents u) := by
    intro u _
    simp [entityEligible, wStatic, staticEnt]
  have hflocks : (make_flock_from_selection wStatic [0] Vec2.zero true).2.1.flocks =
      [{ ents := [], target_xz := Vec2.zero }] := by
    show removalPhase wStatic [0] wStatic.flocks ++
      [{ ents := (enrollPhase wStatic [0] wStatic.stateTable).1,
         target_xz := Vec2.zero }] = _
    rw [removalPhase_ineligible wStatic [0] wStatic.flocks hn,
      enrollPhase_ineligible wStatic [0] wStatic.stateTable hn]
    rfl
  refine ⟨rfl, ⟨{ ents := [], target_xz := Vec2.zero }, ?_, rfl⟩⟩
  rw [hflocks]
  exact List.mem_singleton_self _

/-- C5 amended: for an all-ineligible selection, `make_flock_from_selection`
returns true, creates no motion states and emits no notifications, but
does push a flock with an empty member set onto the registry. -/
theorem make_flock_all_ineligible (w : World) (sel : List Nat) (t : Vec2)
    (h : ∀ u ∈ sel, ¬ entityEligible (w.ents u)) :
    make_flock_from_selection w sel t true =
      (true, { w with flocks := w.flocks ++ [{ ents := [], target_xz := t }] }, []) := by
  simp only [make_flock_from_selection]
  rw [removalPhase_ineligible w sel w.flocks h,
    enrollPhase_ineligible w sel w.stateTable h]
  simp

/-- Witness for the amended C5 on a concrete all-static selection. -/
theorem make_flock_all_ineligible_witness :
    (∀ u ∈ ([0] : List Nat), ¬ entityEligible (wStatic.ents u)) ∧
    make_flock_from_selection wStatic [0] Vec2.zero true =
      (true, { wStatic with
        flocks := wStatic.flocks ++ [{ ents := [], target_xz := Vec2.zero }] }, []) := by
  have hn : ∀ u ∈ ([0] : List Nat), ¬ entityEligible (wStatic.ents u) := by
    intro u _
    simp [entityEligible, wStatic, staticEnt]
  exact ⟨hn, make_flock_all_ineligible wStatic [0] Vec2.zero hn⟩

/-- C6 counterexample: on allocation failure, `make_flock_from_selection`
returns false but the registry has already been mutated — the selected
agent was removed from its flock and the emptied flock destroyed — so the
call is not atomic on failure. -/
theorem make_flock_alloc_fail_mutates :
    (make_flock_from_selection wOneFlock [1] Vec2.zero false).1 = false ∧
    (make_flock_from_selection wOneFlock [1] Vec2.zero false).2.1.flocks ≠
      wOneFlock.flocks := by
  have hel : entityEligible (wOneFlock.ents 1) := by
    constructor
    · rfl
    · norm_num [wOneFlock, sampleEnt]
  have hflocks : (make_flock_from_selection wOneFlock [1] Vec2.zero false).2.1.flocks
      = [] := by
    show removalPhase wOneFlock [1] wOneFlock.flocks = []
    show removalPhase wOneFlock []
      (if entityEligible (wOneFlock.ents 1) then removeUid 1 wOneFlock.flocks
       else wOneFlock.flocks) = []
    rw [if_pos hel]
    rfl
  refine ⟨rfl, ?_⟩
  rw [hflocks]
  simp [wOneFlock]

/-- C6 amended: when the allocation fails, `make_flock_from_selection`
returns false, the state table is untouched and no notification is
emitted, but the removal phase has already run on the registry: eligible
selected agents were removed from their flocks and emptied flocks
destroyed, and that mutation is not rolled back. -/
theorem make_flock_alloc_fail_leaves_removals (w : World) (sel : List Nat) (t : Vec2) :
    make_flock_from_selection w sel t false =
      (false, { w with flocks := removalPhase w sel w.flocks }, []) := rfl

/-- C7: a flock all of whose members are in the ARRIVED phase at the start
of a tick is destroyed by that tick — it is absent from the registry the
next tick iterates — and the state-table entries of its members are not
processed (unchanged), for members belonging to no other flock. -/
theorem tick_disbands_all_arrived (mc : Vec2 → Vec2) (w : World) (f : Flock)
    (hf : f ∈ w.flocks)
    (harr : ∀ uid ∈ f.ents, ∃ ms, w.stateTable uid = some ms ∧
      ms.state = ArrivalState.arrived) :
    f ∉ (tickW mc w).flocks ∧
    (∀ uid ∈ f.ents, (∀ g ∈ w.flocks, g ≠ f → uid ∉ g.ents) →
      (tickW mc w).stateTable uid = w.stateTable uid) := by
  obtain ⟨h1, h2⟩ := runFlocks_drop mc f w.flocks w harr
  constructor
  · rw [tickW_flocks]
    exact h1
  · intro uid hm hng
    rw [tickW_stateTable]
    exact h2 uid hm hng

/-- Witness for C7: a concrete two-member flock with both members ARRIVED
is gone from the registry after one tick. -/
theorem tick_disbands_all_arrived_witness :
    fPair ∈ wPairArrived.flocks ∧
    fPair ∉ (tickW id wPairArrived).flocks := by
  have hf : fPair ∈ wPairArrived.flocks := List.mem_singleton_self _
  have harr : ∀ uid ∈ fPair.ents, ∃ ms, wPairArrived.stateTable uid = some ms ∧
      ms.state = ArrivalState.arrived := by
    intro uid hm
    have h2 : uid < 2 := by
      rcases List.mem_cons.mp hm with he | hm'
      · omega
      · rcases List.mem_cons.mp hm' with he' | hm''
        · omega
        · exact absurd hm'' (List.not_mem_nil uid)
    refine ⟨⟨Vec2.zero, ArrivalState.arrived⟩, ?_, rfl⟩
    simp [wPairArrived, h2]
  exact ⟨hf, (tick_disbands_all_arrived id wPairArrived fPair hf harr).1⟩

/-- C8: for every eligible agent of a duplicate-free selection, the
enrollment writes exactly the entry described by `enrollEntry` (a fresh
entry with zero velocity and phase MOVING, or the existing entry with its
velocity preserved and the phase forced to MOVING), and a motion-start
notification is emitted if and only if the agent had no entry or its
entry was in the ARRIVED phase. -/
theorem make_flock_motion_start_iff (w : World) (sel : List Nat) (t : Vec2)
    (uid : Nat) (hnd : sel.Nodup) (hmem : uid ∈ sel)
    (hel : entityEligible (w.ents uid)) :
    (make_flock_from_selection w sel t true).2.1.stateTable uid =
      some (enrollEntry (w.stateTable uid)) ∧
    (Event.motionStart uid ∈ (make_flock_from_selection w sel t true).2.2 ↔
      (w.stateTable uid = none ∨
        ∃ ms, w.stateTable uid = some ms ∧ ms.state = ArrivalState.arrived)) := by
  obtain ⟨h1, h2⟩ := enrollPhase_self w uid sel w.stateTable hnd hmem hel
  exact ⟨h1, h2⟩

/-- Witness for C8: enrolling the fresh agent 5 into a flock creates a
zero-velocity MOVING entry and emits a motion-start notification. -/
theorem make_flock_motion_start_iff_witness :
    ([5] : List Nat).Nodup ∧ 5 ∈ ([5] : List Nat) ∧
    entityEligible (wEmpty.ents 5) ∧
    (make_flock_from_selection wEmpty [5] Vec2.zero true).2.1.stateTable 5 =
      some (enrollEntry (wEmpty.stateTable 5)) := by
  have hnd : ([5] : List Nat).Nodup := by simp
  have hmem : 5 ∈ ([5] : List Nat) := List.mem_singleton_self _
  have hel : entityEligible (wEmpty.ents 5) := by
    constructor
    · rfl
    · norm_num [wEmpty, sampleEnt]
  exact ⟨hnd, hmem, hel,
    (make_flock_motion_start_iff wEmpty [5] Vec2.zero 5 hnd hmem hel).1⟩

/-- C9: the arrive force equals the spec's formula — normalized offset to
the target scaled by `maxSpeed / tickRate` and additionally by
`distance / slowingRadius` when inside the slowing radius, minus the
current velocity, clamped to magnitude one. -/
theorem arrive_force_refines_spec (w : World) (uid : Nat) (f : Flock) (tickRes : ℝ) :
    arrive_force w uid f tickRes = arriveForceSpec w uid f tickRes := by
  unfold arrive_force arriveForceSpec ARRIVE_SLOWING_RADIUS MAX_FORCE
  dsimp only
  split_ifs with h
  · rw [Vec2.scale_scale, mul_comm]
  · rfl

/-- C10: invariant not stated in the spec — whenever a stored phase is
ARRIVED the stored velocity is exactly zero; the invariant is preserved
both by every tick (transitions into ARRIVED write zero velocity, and an
ARRIVED agent receives zero steering force) and by
`make_flock_from_selection` (which re-enrolls agents with the velocity
preserved and the phase forced to MOVING). -/
theorem arrived_velocity_zero_invariant (mc : Vec2 → Vec2) (w : World)
    (sel : List Nat) (t : Vec2) (allocOk : Bool) (h : arrivedZero w) :
    arrivedZero (tickW mc w) ∧
    arrivedZero (make_flock_from_selection w sel t allocOk).2.1 := by
  constructor
  · intro uid ms hms ha
    rcases (tickW_evolves mc w).2 uid with he | ⟨m, m', hA, hB, _, _, hz⟩
    · exact h uid ms (he.trans hms) ha
    · rw [hms] at hB
      injection hB with hBe
      subst hBe
      exact hz (h uid m hA) ha
  · cases allocOk with
    | false =>
        intro uid ms hms ha
        exact h uid ms hms ha
    | true =>
        intro uid ms hms ha
        exact enrollPhase_az w sel w.stateTable h uid ms hms ha

/-- Witness for C10 on a concrete world with no motion states at all. -/
theorem arrived_velocity_zero_invariant_witness :
    arrivedZero wEmpty ∧ arrivedZero (tickW id wEmpty) := by
  have h : arrivedZero wEmpty := by
    intro uid ms hms
    cases hms
  exact ⟨h, (arrived_velocity_zero_invariant id wEmpty [] Vec2.zero true h).1⟩

end

end Movement
